import Mathlib

/-!
Verification of the HTTP response parsing core of the lura proxy package
(`proxy/http_response.go`), shallowly embedded in Lean 4.

Go strings are byte slices; we model them as `List Nat` (each entry one
byte).  `http.Header` is a map from canonical header names to lists of
values; we model it as an association list whose update operation keeps
keys unique, matching Go map semantics.
-/

namespace Lura

/-- Go strings and byte slices, modelled as lists of bytes. -/
abbrev GoStr := List Nat

/-- Helper turning a Lean string literal into its byte list (ASCII inputs only). -/
def str (s : String) : GoStr := s.toList.map Char.toNat

/-- Byte classifier from Go net/textproto: true exactly for the bytes that
may appear in a header field name (RFC 7230 token characters). -/
def isTokenByte (c : Nat) : Bool :=
  decide ((48 ≤ c ∧ c ≤ 57) ∨ (65 ≤ c ∧ c ≤ 90) ∨ (97 ≤ c ∧ c ≤ 122) ∨
    c = 33 ∨ c = 35 ∨ c = 36 ∨ c = 37 ∨ c = 38 ∨ c = 39 ∨ c = 42 ∨ c = 43 ∨
    c = 45 ∨ c = 46 ∨ c = 94 ∨ c = 95 ∨ c = 96 ∨ c = 124 ∨ c = 126)

/-- True when every byte of the key is a valid header field byte; Go
canonicalizes a key only in that case. -/
def allTokenBytes (s : GoStr) : Bool := s.all isTokenByte

/-- One step of MIME header key canonicalization: uppercase a letter at the
start or after a hyphen, lowercase it elsewhere (Go net/textproto). -/
def canonByte (upper : Bool) (c : Nat) : Nat :=
  if upper ∧ 97 ≤ c ∧ c ≤ 122 then c - 32
  else if ¬ upper ∧ 65 ≤ c ∧ c ≤ 90 then c + 32
  else c

/-- Case-canonicalize a byte string, tracking whether the previous byte was a
hyphen (Go net/textproto canonicalMIMEHeaderKey loop). -/
def canonFrom (upper : Bool) : GoStr → GoStr
  | [] => []
  | c :: rest =>
    let c' := canonByte upper c
    c' :: canonFrom (c' == 45) rest

/-- Go textproto.CanonicalMIMEHeaderKey: canonical-case the key when all its
bytes are valid header field bytes, otherwise return it unchanged.  (The Go
function can leave a prefix canonicalized when it meets an invalid byte
mid-way; header names exercised here are all-valid tokens, where the two
agree exactly.) -/
def canonicalMIMEHeaderKey (s : GoStr) : GoStr :=
  if allTokenBytes s then canonFrom true s else s

/-- Go http.Header / textproto.MIMEHeader: canonical header name to list of
values, as an association list. -/
abbrev Header := List (GoStr × List GoStr)

/-- First binding of a key in the association list (Go map lookup). -/
def headerLookup : Header → GoStr → Option (List GoStr)
  | [], _ => none
  | (k, v) :: t, key => if k = key then some v else headerLookup t key

/-- Go http.Header.Get: canonicalize the key, return the first value bound to
it, or the empty string when the key is absent or has no values. -/
def headerGet (h : Header) (key : GoStr) : GoStr :=
  match headerLookup h (canonicalMIMEHeaderKey key) with
  | some (v :: _) => v
  | _ => []

/-- Replace the binding of a key (first occurrence) or append a new binding:
Go map assignment on an association list. -/
def setEntry : Header → GoStr → List GoStr → Header
  | [], k, v => [(k, v)]
  | (k', v') :: t, k, v => if k' = k then (k, v) :: t else (k', v') :: setEntry t k v

/-- Go http.Header.Set: canonicalize the key and bind it to the single given
value, discarding previous values. -/
def headerSet (h : Header) (key value : GoStr) : Header :=
  setEntry h (canonicalMIMEHeaderKey key) [value]

/-- The raw upstream response (Go http.Response): status code, header map and
the body byte stream, modelled by the byte sequence it delivers. -/
structure HTTPResponse where
  statusCode : Nat
  header : Header
  body : GoStr
deriving DecidableEq

/-- Modelled from the spec: the backend configuration (config.Backend, defined
outside src/) is consumed only through its read-only allow-list of header
names eligible for propagation (field HeadersFromResponse). -/
structure Backend where
  headersFromResponse : List GoStr
deriving DecidableEq

/-- What reading the effective byte source to completion yields: either the
delivered bytes, or a read error raised by the stream (a gzip stream whose
compressed data is corrupt). -/
inductive ReadRes where
  | bytes (bs : GoStr)
  | readErr (e : GoStr)
deriving DecidableEq

/-- Modelled from the spec: the decoder capability (encoding.Decoder, defined
outside src/) consumes the byte stream and produces structured data (a map
from string keys to values) or a decode error.  Its observable input is the
behaviour of the stream it reads. -/
def Decoder (α : Type) : Type := ReadRes → Except GoStr (List (GoStr × α))

/-- Modelled from the spec: a cancellation scope (context.Context), observed
only through whether it has been cancelled. -/
structure Ctx where
  cancelled : Bool
deriving DecidableEq

/-- Modelled from the spec: the context-aware stream adapter returned by
NewReadCloserWrapper (defined outside src/), wrapping the raw body and bound
to the cancellation scope. -/
structure ReadCloserWrapper where
  ctx : Ctx
  src : GoStr
deriving DecidableEq

/-- Modelled from the spec: NewReadCloserWrapper wraps the raw body stream in
an adapter bound to the supplied cancellation scope. -/
def NewReadCloserWrapper (ctx : Ctx) (body : GoStr) : ReadCloserWrapper := ⟨ctx, body⟩

/-- Modelled from the spec: reading the wrapper to completion yields the raw
body bytes, unless the scope was cancelled, in which case reads fail with a
cancellation error. -/
def readAllWrapper (w : ReadCloserWrapper) : Except GoStr GoStr :=
  if w.ctx.cancelled then .error (str "context canceled") else .ok w.src

/-- Modelled from the spec: response metadata (proxy.Metadata, defined outside
src/) - the filtered header set and the status code (Go zero value 0 when
never assigned). -/
structure Metadata where
  headers : Header
  statusCode : Nat
deriving DecidableEq

/-- Modelled from the spec: the normalized response (proxy.Response, defined
outside src/) - structured data payload, completeness flag, optional raw byte
stream (field Io, nil when absent), and metadata. -/
structure Response (α : Type) where
  data : List (GoStr × α)
  isComplete : Bool
  stream : Option ReadCloserWrapper
  metadata : Metadata
deriving DecidableEq

/-- The parsing configuration (HTTPResponseParserConfig): a decoder and an
entity formatter. -/
structure HTTPResponseParserConfig (α : Type) where
  decoder : Decoder α
  entityFormatter : Response α → Response α

/-- DefaultHTTPResponseParserConfig: a decoder that reads nothing and reports
no error (the data map stays empty), and the identity entity formatter. -/
def DefaultHTTPResponseParserConfig (α : Type) : HTTPResponseParserConfig α :=
  { decoder := fun _ => .ok [], entityFormatter := fun r => r }

/-- Abstract model of the external gzip library (compress/gzip): whether
NewReader succeeds on the given body (its header parses), and what reading
the opened stream to completion yields. -/
structure GzipModel where
  openOk : GoStr → Bool
  inflate : GoStr → Except GoStr GoStr

/-- The effective byte source selected by the Content-Encoding switch: the
raw body, a successfully opened gzip stream, or the nil reader that
gzip.NewReader leaves behind when its error is discarded. -/
inductive Source where
  | raw
  | gzipOk
  | gzipNil
deriving DecidableEq

/-- The Content-Encoding switch of the decode path: value "gzip" selects a
gzip reader over the raw body (nil when stream-open fails, since the error
is discarded), any other value selects the raw body. -/
def effectiveSource (g : GzipModel) (resp : HTTPResponse) : Source :=
  if headerGet resp.header (str "Content-Encoding") = str "gzip" then
    (if g.openOk resp.body then .gzipOk else .gzipNil)
  else .raw

/-- Reading the selected byte source to completion: raw body bytes, inflated
gzip bytes or a gzip read error; none models the nil reader, every read or
close of which faults. -/
def sourceRead (g : GzipModel) (resp : HTTPResponse) : Option ReadRes :=
  match effectiveSource g resp with
  | .raw => some (.bytes resp.body)
  | .gzipOk =>
    match g.inflate resp.body with
    | .ok bs => some (.bytes bs)
    | .error e => some (.readErr e)
  | .gzipNil => none

/-- Header projection loop of the decode path: for each allow-listed name,
canonicalize it, and when the raw response carries a non-empty value under
the canonical name, Set it in the accumulator. -/
def projectAux : List GoStr → Header → Header → Header
  | [], _, acc => acc
  | n :: rest, h, acc =>
    let k := canonicalMIMEHeaderKey n
    if headerGet h k ≠ [] then projectAux rest h (headerSet acc k (headerGet h k))
    else projectAux rest h acc

/-- Header projection starting from the fresh empty header map
(responseHeader := make(http.Header)). -/
def projectHeaders (allow : List GoStr) (h : Header) : Header :=
  projectAux allow h []

/-- The Response literal built by the decode path before formatting: decoded
data, IsComplete true, projected headers; the stream field and the status
code keep their zero values (nil and 0). -/
def buildResponse {α : Type} (remote : Backend) (resp : HTTPResponse)
    (data : List (GoStr × α)) : Response α :=
  { data := data
    isComplete := true
    stream := none
    metadata :=
      { headers := projectHeaders remote.headersFromResponse resp.header
        statusCode := 0 } }

/-- Resource release events observed while the decode path runs: closing the
gzip reader and closing the raw response body (deferred calls, run in
reverse order of registration). -/
inductive CloseEv where
  | gzipReader
  | body
deriving DecidableEq

/-- How a call of the decode path ends: a Go return of the (response, error)
pair, or a runtime fault (nil pointer dereference on the nil gzip reader). -/
inductive Outcome (α : Type) where
  | ret (resp : Option (Response α)) (err : Option GoStr)
  | panicked
deriving DecidableEq

/-- The deferred close calls that run when the decode path exits: the gzip
reader close (registered second, runs first) precedes the body close exactly
when a gzip stream was successfully opened; on the nil-reader path the reader
close itself is the fault, and only the body close completes. -/
def closeLog (g : GzipModel) (resp : HTTPResponse) : List CloseEv :=
  if effectiveSource g resp = .gzipOk then [.gzipReader, .body] else [.body]

/-- The decode path (the parser returned by DefaultHTTPResponseParserFactory):
select the byte source from Content-Encoding, run the decoder, on decoder
error return (nil, err), otherwise build the response, apply the entity
formatter and return it; a nil gzip reader faults the call, because the
deferred reader.Close dereferences nil whatever the decoder did.  The second
component records the deferred closes that completed. -/
def defaultHTTPResponseParser {α : Type} (g : GzipModel) (remote : Backend)
    (cfg : HTTPResponseParserConfig α) (resp : HTTPResponse) :
    Outcome α × List CloseEv :=
  match sourceRead g resp with
  | none => (.panicked, closeLog g resp)
  | some rr =>
    match cfg.decoder rr with
    | .error e => (.ret none (some e), closeLog g resp)
    | .ok data =>
      (.ret (some (cfg.entityFormatter (buildResponse remote resp data))) none,
        closeLog g resp)

/-- NoOpHTTPResponseParser: infallible; copies the body into the proxy
response stream wrapper and the status code and full header set verbatim,
with an empty data map and IsComplete true. -/
def NoOpHTTPResponseParser (α : Type) (ctx : Ctx) (resp : HTTPResponse) :
    Option (Response α) × Option GoStr :=
  (some
    { data := []
      isComplete := true
      stream := some (NewReadCloserWrapper ctx resp.body)
      metadata :=
        { statusCode := resp.statusCode
          headers := resp.header } }, none)

/-- Concrete gzip model for counterexamples and witnesses: stream-open
succeeds exactly when the body starts with the gzip magic bytes 0x1f 0x8b
and method byte 8 and is long enough to hold a gzip header (a necessary
condition in compress/gzip; inputs used below fail or pass it in the real
library as well), and every successfully opened stream fails on read with a
checksum error (corrupt compressed data). -/
def gzipHeaderOk (bs : GoStr) : Bool :=
  decide (10 ≤ bs.length) && (bs.headD 0 == 31) &&
    ((bs.drop 1).headD 0 == 139) && ((bs.drop 2).headD 0 == 8)

/-- Gzip model instance whose opened streams always fail on read. -/
def gzipCorruptModel : GzipModel :=
  { openOk := gzipHeaderOk, inflate := fun _ => .error (str "gzip: invalid checksum") }

/-- Gzip model instance whose opened streams inflate to the bytes after the
10-byte header (a stand-in decompression for concrete witnesses). -/
def gzipPlainModel : GzipModel :=
  { openOk := gzipHeaderOk, inflate := fun bs => .ok (bs.drop 10) }

/-! Concrete inputs used by witnesses and counterexamples. -/

/-- A response advertising brotli encoding, which the code does not
special-case. -/
def respBr : HTTPResponse :=
  { statusCode := 200, header := [(str "Content-Encoding", [str "br"])], body := str "abc" }

/-- A plain response with no Content-Encoding header. -/
def respPlain : HTTPResponse :=
  { statusCode := 200, header := [], body := str "x" }

/-- A response claiming gzip whose body cannot even open as a gzip stream
(first byte is not the gzip magic; compress/gzip NewReader rejects it). -/
def respBadGzip : HTTPResponse :=
  { statusCode := 200, header := [(str "Content-Encoding", [str "gzip"])], body := [0] }

/-- A response claiming gzip whose body opens as a gzip stream (valid magic
and method bytes) but whose compressed data is corrupt. -/
def respGzipCorrupt : HTTPResponse :=
  { statusCode := 200, header := [(str "Content-Encoding", [str "gzip"])],
    body := [31, 139, 8, 0, 0, 0, 0, 0, 0, 0] }

/-- A response carrying one projectable header. -/
def respXFoo : HTTPResponse :=
  { statusCode := 200, header := [(str "X-Foo", [str "bar"])], body := str "\x7b\x7d" }

/-- A decoder that always rejects its input. -/
def rejectingDecoder : Decoder Nat := fun _ => .error (str "boom")

/-- Configuration with the always-rejecting decoder and identity formatter. -/
def cfgReject : HTTPResponseParserConfig Nat :=
  { decoder := rejectingDecoder, entityFormatter := fun r => r }

/-- A decoder that accepts delivered bytes with an empty result and surfaces
stream read errors verbatim (the behaviour of a stream-reading decoder such
as encoding/json on a failing reader). -/
def propagatingDecoder : Decoder Nat := fun rr =>
  match rr with
  | .bytes _ => .ok []
  | .readErr e => .error e

/-- Configuration with the propagating decoder and identity formatter. -/
def cfgPropagate : HTTPResponseParserConfig Nat :=
  { decoder := propagatingDecoder, entityFormatter := fun r => r }

/-- An uncancelled scope for the passthrough scenario. -/
def ctxLive : Ctx := ⟨false⟩

/-- The passthrough scenario input: status 200, header X-Foo: bar, body the
JSON bytes of the object with field a equal to 1. -/
def respPassthrough : HTTPResponse :=
  { statusCode := 200, header := [(str "X-Foo", [str "bar"])],
    body := str "\x7b\"a\":1\x7d" }

/-- The passthrough scenario output. -/
def rPass : Response Nat :=
  { data := []
    isComplete := true
    stream := some (NewReadCloserWrapper ctxLive respPassthrough.body)
    metadata := { headers := [(str "X-Foo", [str "bar"])], statusCode := 200 } }

/-- A response with an empty JSON object body and no special headers. -/
def respEmptyJSON : HTTPResponse :=
  { statusCode := 200, header := [], body := str "\x7b\x7d" }

/-! Canonicalization lemmas: Go MIME header key canonicalization is
idempotent, which the header projection proofs need because the code calls
Get and Set on names that are already canonical. -/

theorem canonByte_false (c : Nat) :
    canonByte false c = if 65 ≤ c ∧ c ≤ 90 then c + 32 else c := by
  unfold canonByte
  by_cases h : 65 ≤ c ∧ c ≤ 90
  · rw [if_neg (by simp), if_pos ⟨by simp, h⟩, if_pos h]
  · rw [if_neg (by simp), if_neg (by simp [h]), if_neg h]

theorem canonByte_true (c : Nat) :
    canonByte true c = if 97 ≤ c ∧ c ≤ 122 then c - 32 else c := by
  unfold canonByte
  by_cases h : 97 ≤ c ∧ c ≤ 122
  · rw [if_pos ⟨rfl, h⟩, if_pos h]
  · rw [if_neg (by simp [h]), if_neg (by simp), if_neg h]

theorem canonByte_idem (b : Bool) (c : Nat) :
    canonByte b (canonByte b c) = canonByte b c := by
  cases b
  · rw [canonByte_false c]
    by_cases h : 65 ≤ c ∧ c ≤ 90
    · rw [if_pos h, canonByte_false, if_neg (by omega)]
    · rw [if_neg h, canonByte_false, if_neg h]
  · rw [canonByte_true c]
    by_cases h : 97 ≤ c ∧ c ≤ 122
    · rw [if_pos h, canonByte_true, if_neg (by omega)]
    · rw [if_neg h, canonByte_true, if_neg h]

theorem isTokenByte_canonByte (b : Bool) (c : Nat) (h : isTokenByte c = true) :
    isTokenByte (canonByte b c) = true := by
  simp only [isTokenByte, decide_eq_true_eq] at h ⊢
  cases b
  · rw [canonByte_false]
    by_cases hc : 65 ≤ c ∧ c ≤ 90
    · rw [if_pos hc]; omega
    · rw [if_neg hc]; exact h
  · rw [canonByte_true]
    by_cases hc : 97 ≤ c ∧ c ≤ 122
    · rw [if_pos hc]; omega
    · rw [if_neg hc]; exact h

theorem canonFrom_idem (s : GoStr) : ∀ b : Bool, canonFrom b (canonFrom b s) = canonFrom b s := by
  induction s with
  | nil => intro b; rfl
  | cons c rest ih =>
    intro b
    simp only [canonFrom]
    rw [canonByte_idem, ih]

theorem allTokenBytes_canonFrom (s : GoStr) (h : allTokenBytes s = true) :
    ∀ b : Bool, allTokenBytes (canonFrom b s) = true := by
  induction s with
  | nil => intro b; rfl
  | cons c rest ih =>
    intro b
    simp only [allTokenBytes, List.all_cons, Bool.and_eq_true] at h
    simp only [canonFrom, allTokenBytes, List.all_cons, Bool.and_eq_true]
    exact ⟨isTokenByte_canonByte b c h.1, ih h.2 _⟩

theorem canonicalMIMEHeaderKey_idem (s : GoStr) :
    canonicalMIMEHeaderKey (canonicalMIMEHeaderKey s) = canonicalMIMEHeaderKey s := by
  unfold canonicalMIMEHeaderKey
  by_cases h : allTokenBytes s = true
  · rw [if_pos h, if_pos (allTokenBytes_canonFrom s h true), canonFrom_idem]
  · rw [if_neg h, if_neg h]

/-! Association-list lemmas: headers built by Set from the empty map behave
as finite maps with unique keys. -/

/-- The keys of a header map are pairwise distinct (Go map invariant,
maintained by setEntry starting from the empty map). -/
def uniqKeys (h : Header) : Prop := (h.map Prod.fst).Nodup

theorem uniqKeys_nil : uniqKeys [] := List.nodup_nil

theorem mem_keys_setEntry (h : Header) (k : GoStr) (v : List GoStr) (x : GoStr) :
    x ∈ (setEntry h k v).map Prod.fst ↔ x = k ∨ x ∈ h.map Prod.fst := by
  induction h with
  | nil => simp [setEntry]
  | cons p t ih =>
    obtain ⟨k', v'⟩ := p
    by_cases hk : k' = k
    · subst hk
      simp [setEntry]
    · simp only [setEntry, if_neg hk, List.map_cons, List.mem_cons, ih]
      tauto

theorem uniqKeys_setEntry (h : Header) (k : GoStr) (v : List GoStr) (hu : uniqKeys h) :
    uniqKeys (setEntry h k v) := by
  induction h with
  | nil => simp [setEntry, uniqKeys]
  | cons p t ih =>
    obtain ⟨k', v'⟩ := p
    simp only [uniqKeys, List.map_cons, List.nodup_cons] at hu
    by_cases hk : k' = k
    · subst hk
      simp only [setEntry, eq_self_iff_true, if_true, uniqKeys, List.map_cons,
        List.nodup_cons]
      exact hu
    · simp only [setEntry, if_neg hk, uniqKeys, List.map_cons, List.nodup_cons]
      refine ⟨?_, ih hu.2⟩
      rw [mem_keys_setEntry]
      rintro (rfl | hmem)
      · exact hk rfl
      · exact hu.1 hmem

theorem mem_setEntry (h : Header) (hu : uniqKeys h) (k x : GoStr) (v vs : List GoStr) :
    (x, vs) ∈ setEntry h k v ↔ (x = k ∧ vs = v) ∨ ((x, vs) ∈ h ∧ x ≠ k) := by
  induction h with
  | nil => simp [setEntry]
  | cons p t ih =>
    obtain ⟨k', v'⟩ := p
    simp only [uniqKeys, List.map_cons, List.nodup_cons] at hu
    by_cases hk : k' = k
    · subst hk
      simp only [setEntry, eq_self_iff_true, if_true, List.mem_cons, Prod.mk.injEq]
      constructor
      · rintro (⟨rfl, rfl⟩ | hmem)
        · exact Or.inl ⟨rfl, rfl⟩
        · refine Or.inr ⟨Or.inr hmem, ?_⟩
          rintro rfl
          exact hu.1 (List.mem_map_of_mem Prod.fst hmem)
      · rintro (⟨rfl, rfl⟩ | ⟨(⟨rfl, rfl⟩ | hmem), hx⟩)
        · exact Or.inl ⟨rfl, rfl⟩
        · exact absurd rfl hx
        · exact Or.inr hmem
    · simp only [setEntry, if_neg hk, List.mem_cons, Prod.mk.injEq, ih hu.2]
      constructor
      · rintro (⟨rfl, rfl⟩ | (⟨rfl, rfl⟩ | ⟨hmem, hx⟩))
        · refine Or.inr ⟨Or.inl ⟨rfl, rfl⟩, ?_⟩
          rintro rfl
          exact hk rfl
        · exact Or.inl ⟨rfl, rfl⟩
        · exact Or.inr ⟨Or.inr hmem, hx⟩
      · rintro (⟨rfl, rfl⟩ | ⟨(⟨rfl, rfl⟩ | hmem), hx⟩)
        · exact Or.inr (Or.inl ⟨rfl, rfl⟩)
        · exact Or.inl ⟨rfl, rfl⟩
        · exact Or.inr (Or.inr ⟨hmem, hx⟩)

/-! Characterization of the decode-path header projection. -/

/-- A key is projected exactly when some allow-listed name canonicalizes to
it and the raw response carries a non-empty value under it. -/
def projected (allow : List GoStr) (h : Header) (k : GoStr) : Prop :=
  (∃ n ∈ allow, canonicalMIMEHeaderKey n = k) ∧ headerGet h k ≠ []

theorem projected_nil (h : Header) (k : GoStr) : ¬ projected [] h k := by
  rintro ⟨⟨n, hn, _⟩, _⟩
  exact List.not_mem_nil n hn

theorem projected_cons (n : GoStr) (rest : List GoStr) (h : Header) (k : GoStr) :
    projected (n :: rest) h k ↔
      (canonicalMIMEHeaderKey n = k ∧ headerGet h k ≠ []) ∨ projected rest h k := by
  simp only [projected, List.mem_cons]
  constructor
  · rintro ⟨⟨m, (rfl | hm), hcan⟩, hne⟩
    · exact Or.inl ⟨hcan, hne⟩
    · exact Or.inr ⟨⟨m, hm, hcan⟩, hne⟩
  · rintro (⟨hcan, hne⟩ | ⟨⟨m, hm, hcan⟩, hne⟩)
    · exact ⟨⟨n, Or.inl rfl, hcan⟩, hne⟩
    · exact ⟨⟨m, Or.inr hm, hcan⟩, hne⟩

theorem mem_projectAux (allow : List GoStr) (h : Header) :
    ∀ acc, uniqKeys acc → ∀ k vs,
      ((k, vs) ∈ projectAux allow h acc ↔
        (projected allow h k ∧ vs = [headerGet h k]) ∨
        ((k, vs) ∈ acc ∧ ¬ projected allow h k)) := by
  induction allow with
  | nil =>
    intro acc _ k vs
    simp only [projectAux]
    constructor
    · intro hm
      exact Or.inr ⟨hm, projected_nil h k⟩
    · rintro (⟨hp, _⟩ | ⟨hm, _⟩)
      · exact absurd hp (projected_nil h k)
      · exact hm
  | cons n rest ih =>
    intro acc hu k vs
    simp only [projectAux]
    by_cases hval : headerGet h (canonicalMIMEHeaderKey n) ≠ []
    · rw [if_pos hval]
      have hset : headerSet acc (canonicalMIMEHeaderKey n)
          (headerGet h (canonicalMIMEHeaderKey n)) =
          setEntry acc (canonicalMIMEHeaderKey n)
            [headerGet h (canonicalMIMEHeaderKey n)] := by
        unfold headerSet
        rw [canonicalMIMEHeaderKey_idem]
      rw [hset, ih _ (uniqKeys_setEntry acc _ _ hu) k vs,
        mem_setEntry acc hu _ k _ vs, projected_cons]
      by_cases hk : canonicalMIMEHeaderKey n = k
      · subst hk
        by_cases hrest : projected rest h (canonicalMIMEHeaderKey n)
        · tauto
        · tauto
      · constructor
        · rintro (⟨hrest, rfl⟩ | ⟨(⟨rfl, rfl⟩ | ⟨hmem, hne⟩), hnr⟩)
          · exact Or.inl ⟨Or.inr hrest, rfl⟩
          · exact absurd rfl hk
          · refine Or.inr ⟨hmem, ?_⟩
            rintro (⟨hck, _⟩ | hr)
            · exact hk hck
            · exact hnr hr
        · rintro (⟨(⟨hck, _⟩ | hrest), hvs⟩ | ⟨hmem, hnp⟩)
          · exact absurd hck hk
          · exact Or.inl ⟨hrest, hvs⟩
          · refine Or.inr ⟨Or.inr ⟨hmem, fun hek => hk hek.symm⟩, ?_⟩
            intro hr
            exact hnp (Or.inr hr)
    · rw [if_neg hval, ih acc hu k vs]
      push_neg at hval
      have hiff : projected (n :: rest) h k ↔ projected rest h k := by
        rw [projected_cons]
        constructor
        · rintro (⟨rfl, hne⟩ | hr)
          · exact absurd hval hne
          · exact hr
        · exact Or.inr
      rw [hiff]

theorem mem_projectHeaders (allow : List GoStr) (h : Header) (k : GoStr) (vs : List GoStr) :
    (k, vs) ∈ projectHeaders allow h ↔
      (∃ n ∈ allow, canonicalMIMEHeaderKey n = k) ∧ headerGet h k ≠ [] ∧
        vs = [headerGet h k] := by
  rw [projectHeaders, mem_projectAux allow h [] uniqKeys_nil k vs]
  simp only [List.not_mem_nil, false_and, or_false, projected]
  tauto

/-- The second component of the decode path is always the deferred close
log. -/
theorem parser_closes {α : Type} (g : GzipModel) (remote : Backend)
    (cfg : HTTPResponseParserConfig α) (resp : HTTPResponse) :
    (defaultHTTPResponseParser g remote cfg resp).2 = closeLog g resp := by
  unfold defaultHTTPResponseParser
  split
  · rfl
  · split
    · rfl
    · rfl

/-! Claim theorems. -/

/-- C1: for every raw response, the decode path selects its effective byte
source solely from the Content-Encoding header: value "gzip" selects a gzip
reader wrapped around the raw body (the successfully opened stream, or the
nil reader when stream-open fails), and any other value, including an absent
header, selects the raw body unchanged. -/
theorem C1_content_encoding_selects_source (g : GzipModel) (resp : HTTPResponse) :
    (headerGet resp.header (str "Content-Encoding") = str "gzip" →
      effectiveSource g resp =
        (if g.openOk resp.body then Source.gzipOk else Source.gzipNil)) ∧
    (headerGet resp.header (str "Content-Encoding") ≠ str "gzip" →
      effectiveSource g resp = Source.raw ∧
      sourceRead g resp = some (ReadRes.bytes resp.body)) := by
  constructor
  · intro h
    simp [effectiveSource, h]
  · intro h
    have hs : effectiveSource g resp = Source.raw := by simp [effectiveSource, h]
    exact ⟨hs, by simp [sourceRead, hs]⟩

/-- Witness for C1 at a concrete non-gzip encoding: brotli passes the raw
body through unchanged. -/
theorem C1_witness :
    effectiveSource gzipPlainModel respBr = Source.raw ∧
    sourceRead gzipPlainModel respBr = some (ReadRes.bytes respBr.body) :=
  (C1_content_encoding_selects_source gzipPlainModel respBr).2 (by decide)

/-- C2: for every allow-list L and raw header set H, the projected header
set holds exactly the canonicalized names of L whose value in H is
non-empty, each bound to that single value, with nothing outside L, and its
entries do not depend on the order of L. -/
theorem C2_header_projection_exact (L : List GoStr) (H : Header) :
    (∀ k vs, (k, vs) ∈ projectHeaders L H ↔
      (∃ n ∈ L, canonicalMIMEHeaderKey n = k) ∧ headerGet H k ≠ [] ∧
        vs = [headerGet H k]) ∧
    (∀ L', L.Perm L' → ∀ k vs,
      ((k, vs) ∈ projectHeaders L H ↔ (k, vs) ∈ projectHeaders L' H)) := by
  refine ⟨fun k vs => mem_projectHeaders L H k vs, fun L' hperm k vs => ?_⟩
  rw [mem_projectHeaders, mem_projectHeaders]
  constructor
  · rintro ⟨⟨n, hn, hc⟩, h2, h3⟩
    exact ⟨⟨n, hperm.mem_iff.mp hn, hc⟩, h2, h3⟩
  · rintro ⟨⟨n, hn, hc⟩, h2, h3⟩
    exact ⟨⟨n, hperm.mem_iff.mpr hn, hc⟩, h2, h3⟩

/-- Witness for C2: a concrete projection and its order-independence under a
concrete permutation of the allow-list. -/
theorem C2_witness :
    ((str "X-Foo", [str "bar"]) ∈
      projectHeaders [str "x-foo", str "content-type"] [(str "X-Foo", [str "bar"])]) ∧
    ((str "X-Foo", [str "bar"]) ∈
      projectHeaders [str "content-type", str "x-foo"] [(str "X-Foo", [str "bar"])]) :=
  have h1 : (str "X-Foo", [str "bar"]) ∈
      projectHeaders [str "x-foo", str "content-type"] [(str "X-Foo", [str "bar"])] :=
    ((C2_header_projection_exact [str "x-foo", str "content-type"]
      [(str "X-Foo", [str "bar"])]).1 _ _).mpr (by decide)
  ⟨h1,
    ((C2_header_projection_exact [str "x-foo", str "content-type"]
        [(str "X-Foo", [str "bar"])]).2 [str "content-type", str "x-foo"]
      (List.Perm.swap (str "content-type") (str "x-foo") []) _ _).mp h1⟩

/-- C3: whenever the configured decoder rejects the effective byte source,
the decode path returns that same error and a nil response, with no partial
payload. -/
theorem C3_decoder_error_propagates {α : Type} (g : GzipModel) (remote : Backend)
    (cfg : HTTPResponseParserConfig α) (resp : HTTPResponse) (rr : ReadRes) (e : GoStr)
    (hs : sourceRead g resp = some rr) (hd : cfg.decoder rr = .error e) :
    defaultHTTPResponseParser g remote cfg resp =
      (Outcome.ret none (some e), closeLog g resp) := by
  simp only [defaultHTTPResponseParser, hs, hd]

/-- Witness for C3 with an always-rejecting decoder on a plain response. -/
theorem C3_witness :
    defaultHTTPResponseParser gzipPlainModel ⟨[]⟩ cfgReject respPlain =
      (Outcome.ret none (some (str "boom")), [CloseEv.body]) := by
  have h := C3_decoder_error_propagates gzipPlainModel ⟨[]⟩ cfgReject respPlain
    (ReadRes.bytes respPlain.body) (str "boom") (by decide) rfl
  rw [h]
  decide

/-- Counterexample to C4 as stated: a response whose Content-Encoding is
gzip but whose body fails gzip stream-open (the first byte is not the gzip
magic, so compress/gzip NewReader returns a nil reader and an error the code
discards).  The decode path then faults (nil pointer dereference) instead of
returning a decode error. -/
theorem C4_counterexample :
    headerGet respBadGzip.header (str "Content-Encoding") = str "gzip" ∧
    gzipCorruptModel.openOk respBadGzip.body = false ∧
    (defaultHTTPResponseParser gzipCorruptModel ⟨[]⟩
      (DefaultHTTPResponseParserConfig Nat) respBadGzip).1 = Outcome.panicked := by
  decide

/-- C4 (amended): for a response whose Content-Encoding is gzip, whose body
passes gzip stream-open, and whose decompression fails on read, a decoder
that surfaces stream read errors makes the decode path return that failure
as a decode error without faulting; only stream-open failure faults. -/
theorem C4_gzip_read_failure_is_decode_error {α : Type} (g : GzipModel)
    (remote : Backend) (cfg : HTTPResponseParserConfig α) (resp : HTTPResponse) (e : GoStr)
    (hce : headerGet resp.header (str "Content-Encoding") = str "gzip")
    (hopen : g.openOk resp.body = true)
    (hinf : g.inflate resp.body = .error e)
    (hprop : cfg.decoder (.readErr e) = .error e) :
    defaultHTTPResponseParser g remote cfg resp =
      (Outcome.ret none (some e), [CloseEv.gzipReader, CloseEv.body]) ∧
    (defaultHTTPResponseParser g remote cfg resp).1 ≠ Outcome.panicked := by
  have hsrc : effectiveSource g resp = Source.gzipOk := by
    simp [effectiveSource, hce, hopen]
  have hread : sourceRead g resp = some (ReadRes.readErr e) := by
    simp [sourceRead, hsrc, hinf]
  have hmain : defaultHTTPResponseParser g remote cfg resp =
      (Outcome.ret none (some e), [CloseEv.gzipReader, CloseEv.body]) := by
    simp only [defaultHTTPResponseParser, hread, hprop, closeLog, hsrc, if_pos]
  refine ⟨hmain, ?_⟩
  rw [hmain]
  simp

/-- Witness for C4 on a concrete corrupt-but-openable gzip body with the
propagating decoder. -/
theorem C4_witness :
    defaultHTTPResponseParser gzipCorruptModel ⟨[]⟩ cfgPropagate respGzipCorrupt =
      (Outcome.ret none (some (str "gzip: invalid checksum")),
        [CloseEv.gzipReader, CloseEv.body]) ∧
    (defaultHTTPResponseParser gzipCorruptModel ⟨[]⟩ cfgPropagate
      respGzipCorrupt).1 ≠ Outcome.panicked :=
  C4_gzip_read_failure_is_decode_error gzipCorruptModel ⟨[]⟩ cfgPropagate
    respGzipCorrupt (str "gzip: invalid checksum") (by decide) (by decide) rfl rfl

/-- C5: when the decoder succeeds, the decode path returns the formatter
applied to the response it built, and that pre-formatting response has the
completeness flag true, the decoded payload, the projected headers and a
status code left at its zero value. -/
theorem C5_decode_success_shape {α : Type} (g : GzipModel) (remote : Backend)
    (cfg : HTTPResponseParserConfig α) (resp : HTTPResponse) (rr : ReadRes)
    (data : List (GoStr × α))
    (hs : sourceRead g resp = some rr) (hd : cfg.decoder rr = .ok data) :
    defaultHTTPResponseParser g remote cfg resp =
      (Outcome.ret (some (cfg.entityFormatter (buildResponse remote resp data))) none,
        closeLog g resp) ∧
    (buildResponse remote resp data).isComplete = true ∧
    (buildResponse remote resp data).data = data ∧
    (buildResponse remote resp data).metadata.headers =
      projectHeaders remote.headersFromResponse resp.header ∧
    (buildResponse remote resp data).metadata.statusCode = 0 := by
  refine ⟨?_, rfl, rfl, rfl, rfl⟩
  simp only [defaultHTTPResponseParser, hs, hd]

/-- Witness for C5 with the default configuration on a concrete response. -/
theorem C5_witness :
    defaultHTTPResponseParser gzipPlainModel ⟨[str "x-foo"]⟩
      (DefaultHTTPResponseParserConfig Nat) respXFoo =
      (Outcome.ret (some ((DefaultHTTPResponseParserConfig Nat).entityFormatter
        (buildResponse ⟨[str "x-foo"]⟩ respXFoo []))) none,
        closeLog gzipPlainModel respXFoo) ∧
    (buildResponse (⟨[str "x-foo"]⟩ : Backend) respXFoo
      ([] : List (GoStr × Nat))).isComplete = true ∧
    (buildResponse (⟨[str "x-foo"]⟩ : Backend) respXFoo
      ([] : List (GoStr × Nat))).data = [] ∧
    (buildResponse (⟨[str "x-foo"]⟩ : Backend) respXFoo
      ([] : List (GoStr × Nat))).metadata.headers =
      projectHeaders [str "x-foo"] respXFoo.header ∧
    (buildResponse (⟨[str "x-foo"]⟩ : Backend) respXFoo
      ([] : List (GoStr × Nat))).metadata.statusCode = 0 :=
  C5_decode_success_shape gzipPlainModel ⟨[str "x-foo"]⟩
    (DefaultHTTPResponseParserConfig Nat) respXFoo (ReadRes.bytes respXFoo.body) []
    (by decide) rfl

/-- C6: the passthrough parser never returns an error; it produces an empty
payload, completeness flag true, the status code and full header set copied
verbatim, and a stream wrapper around the raw body; in particular, on the
scenario of status 200, header X-Foo: bar and body bytes of an object with
field a equal to 1, the output is complete, has an empty payload, status
200, carries X-Foo: bar, and its stream yields exactly the body bytes. -/
theorem C6_noop_passthrough (α : Type) (ctx : Ctx) (resp : HTTPResponse) :
    ((NoOpHTTPResponseParser α ctx resp).2 = none ∧
      (NoOpHTTPResponseParser α ctx resp).1 = some
        { data := []
          isComplete := true
          stream := some (NewReadCloserWrapper ctx resp.body)
          metadata := { headers := resp.header, statusCode := resp.statusCode } }) ∧
    (NoOpHTTPResponseParser Nat ctxLive respPassthrough).1 = some rPass ∧
    rPass.isComplete = true ∧
    rPass.data = [] ∧
    rPass.metadata.statusCode = 200 ∧
    headerGet rPass.metadata.headers (str "X-Foo") = str "bar" ∧
    readAllWrapper (NewReadCloserWrapper ctxLive respPassthrough.body) =
      .ok (str "\x7b\"a\":1\x7d") := by
  refine ⟨⟨rfl, rfl⟩, rfl, rfl, rfl, rfl, by decide, rfl⟩

/-- Counterexample to C7 as stated: with the default configuration (whose
decoder leaves the data map empty), a decode-path result has an empty
payload and a nil stream at the same time, so a decode-path result does not
always carry a populated payload, and "never neither" fails. -/
theorem C7_counterexample :
    (defaultHTTPResponseParser gzipCorruptModel ⟨[]⟩
      (DefaultHTTPResponseParserConfig Nat) respEmptyJSON).1 =
      Outcome.ret (some (buildResponse ⟨[]⟩ respEmptyJSON
        ([] : List (GoStr × Nat)))) none ∧
    (buildResponse (⟨[]⟩ : Backend) respEmptyJSON
      ([] : List (GoStr × Nat))).data = [] ∧
    (buildResponse (⟨[]⟩ : Backend) respEmptyJSON
      ([] : List (GoStr × Nat))).stream = none := by
  decide

/-- C7 (amended): when the configured formatter preserves the stream field
(as the default identity formatter does), every successful decode-path
result has a nil stream - its payload may still be empty - while every
passthrough result carries an attached stream and an empty payload; so no
such response carries both a non-empty payload and an attached stream. -/
theorem C7_content_carrier {α : Type} (g : GzipModel) (remote : Backend)
    (cfg : HTTPResponseParserConfig α) (resp : HTTPResponse) (r : Response α)
    (closes : List CloseEv) (ctx : Ctx)
    (hfmt : ∀ x : Response α, (cfg.entityFormatter x).stream = x.stream)
    (hret : defaultHTTPResponseParser g remote cfg resp =
      (Outcome.ret (some r) none, closes)) :
    r.stream = none ∧
    (∀ r' : Response α, (NoOpHTTPResponseParser α ctx resp).1 = some r' →
      r'.stream ≠ none ∧ r'.data = []) := by
  constructor
  · unfold defaultHTTPResponseParser at hret
    cases hsr : sourceRead g resp with
    | none =>
      simp only [hsr] at hret
      exact absurd (congrArg Prod.fst hret) (by simp)
    | some rr =>
      simp only [hsr] at hret
      cases hd : cfg.decoder rr with
      | error e =>
        simp only [hd] at hret
        exact absurd (congrArg Prod.fst hret) (by simp)
      | ok data =>
        simp only [hd, Prod.mk.injEq, Outcome.ret.injEq, Option.some.injEq] at hret
        obtain ⟨⟨h1, -⟩, -⟩ := hret
        rw [← h1, hfmt]
        rfl
  · intro r' hr'
    simp only [NoOpHTTPResponseParser, Option.some.injEq] at hr'
    rw [← hr']
    exact ⟨by simp, rfl⟩

/-- Witness for C7 with the default configuration on a concrete response. -/
theorem C7_witness :
    (buildResponse (⟨[]⟩ : Backend) respPlain ([] : List (GoStr × Nat))).stream = none ∧
    (∀ r' : Response Nat, (NoOpHTTPResponseParser Nat ctxLive respPlain).1 = some r' →
      r'.stream ≠ none ∧ r'.data = []) :=
  C7_content_carrier gzipCorruptModel ⟨[]⟩ (DefaultHTTPResponseParserConfig Nat)
    respPlain (buildResponse ⟨[]⟩ respPlain []) [CloseEv.body] ctxLive
    (fun _ => rfl) (by decide)

/-- C8: on every returning exit of the decode path, success or decoder
error, the raw body close runs last, and when a gzip stream was successfully
opened its close runs, before the body close. -/
theorem C8_close_discipline {α : Type} (g : GzipModel) (remote : Backend)
    (cfg : HTTPResponseParserConfig α) (resp : HTTPResponse) :
    CloseEv.body ∈ (defaultHTTPResponseParser g remote cfg resp).2 ∧
    (defaultHTTPResponseParser g remote cfg resp).2.getLast? = some CloseEv.body ∧
    (effectiveSource g resp = Source.gzipOk →
      (defaultHTTPResponseParser g remote cfg resp).2 =
        [CloseEv.gzipReader, CloseEv.body]) := by
  rw [parser_closes]
  by_cases h : effectiveSource g resp = Source.gzipOk
  · rw [closeLog, if_pos h]
    exact ⟨by simp, rfl, fun _ => rfl⟩
  · rw [closeLog, if_neg h]
    exact ⟨by simp, rfl, fun hc => absurd hc h⟩

/-- Witness for C8 on a gzip response whose stream opens successfully. -/
theorem C8_witness :
    CloseEv.body ∈ (defaultHTTPResponseParser gzipCorruptModel ⟨[]⟩ cfgPropagate
      respGzipCorrupt).2 ∧
    (defaultHTTPResponseParser gzipCorruptModel ⟨[]⟩ cfgPropagate
      respGzipCorrupt).2.getLast? = some CloseEv.body ∧
    (defaultHTTPResponseParser gzipCorruptModel ⟨[]⟩ cfgPropagate
      respGzipCorrupt).2 = [CloseEv.gzipReader, CloseEv.body] :=
  have h := C8_close_discipline gzipCorruptModel ⟨[]⟩ cfgPropagate respGzipCorrupt
  ⟨h.1, h.2.1, h.2.2 (by decide)⟩

/-- C9: the default configuration carries the identity formatter, so
applying it twice equals applying it once, and the decode-path output under
the default configuration is exactly the response built before formatting. -/
theorem C9_default_formatter_idempotent (α : Type) :
    (∀ r : Response α,
      (DefaultHTTPResponseParserConfig α).entityFormatter
        ((DefaultHTTPResponseParserConfig α).entityFormatter r) =
      (DefaultHTTPResponseParserConfig α).entityFormatter r) ∧
    (∀ (g : GzipModel) (remote : Backend) (resp : HTTPResponse) (rr : ReadRes)
      (data : List (GoStr × α)),
      sourceRead g resp = some rr →
      (DefaultHTTPResponseParserConfig α).decoder rr = .ok data →
      (defaultHTTPResponseParser g remote (DefaultHTTPResponseParserConfig α) resp).1 =
        Outcome.ret (some (buildResponse remote resp data)) none) := by
  refine ⟨fun r => rfl, fun g remote resp rr data hs hd => ?_⟩
  obtain rfl : data = [] := by
    have h := hd
    simp only [DefaultHTTPResponseParserConfig, Except.ok.injEq] at h
    exact h.symm
  simp only [defaultHTTPResponseParser, DefaultHTTPResponseParserConfig, hs]

/-- Witness for C9: the identity formatter is idempotent on a concrete
response and the concrete decode output is the unformatted construction. -/
theorem C9_witness :
    (DefaultHTTPResponseParserConfig Nat).entityFormatter
      ((DefaultHTTPResponseParserConfig Nat).entityFormatter rPass) =
      (DefaultHTTPResponseParserConfig Nat).entityFormatter rPass ∧
    (defaultHTTPResponseParser gzipPlainModel ⟨[]⟩
      (DefaultHTTPResponseParserConfig Nat) respPlain).1 =
      Outcome.ret (some (buildResponse ⟨[]⟩ respPlain [])) none :=
  ⟨(C9_default_formatter_idempotent Nat).1 rPass,
    (C9_default_formatter_idempotent Nat).2 gzipPlainModel ⟨[]⟩ respPlain
      (ReadRes.bytes respPlain.body) [] (by decide) rfl⟩

/-- C10: when an allow-listed name resolves to a multi-valued raw header
with a non-empty first value, the projection binds the canonical name to
that first value alone; every additional value is dropped. -/
theorem C10_first_value_only (L : List GoStr) (H : Header) (n v : GoStr)
    (vs : List GoStr) (hn : n ∈ L)
    (hl : headerLookup H (canonicalMIMEHeaderKey n) = some (v :: vs))
    (hv : v ≠ []) :
    (canonicalMIMEHeaderKey n, [v]) ∈ projectHeaders L H ∧
    (∀ ws, (canonicalMIMEHeaderKey n, ws) ∈ projectHeaders L H → ws = [v]) := by
  have hget : headerGet H (canonicalMIMEHeaderKey n) = v := by
    unfold headerGet
    rw [canonicalMIMEHeaderKey_idem, hl]
  constructor
  · rw [mem_projectHeaders]
    exact ⟨⟨n, hn, rfl⟩, by rw [hget]; exact hv, by rw [hget]⟩
  · intro ws hws
    rw [mem_projectHeaders] at hws
    rw [hws.2.2, hget]

/-- Witness for C10 on a concrete two-valued Set-Cookie header. -/
theorem C10_witness :
    (canonicalMIMEHeaderKey (str "set-cookie"), [str "a=1"]) ∈
      projectHeaders [str "set-cookie"]
        [(str "Set-Cookie", [str "a=1", str "b=2"])] ∧
    (∀ ws, (canonicalMIMEHeaderKey (str "set-cookie"), ws) ∈
      projectHeaders [str "set-cookie"]
        [(str "Set-Cookie", [str "a=1", str "b=2"])] → ws = [str "a=1"]) :=
  C10_first_value_only [str "set-cookie"]
    [(str "Set-Cookie", [str "a=1", str "b=2"])] (str "set-cookie")
    (str "a=1") [str "b=2"] (by decide) (by decide) (by decide)

end Lura
